import Mathlib

/-!
# MiloBot — poll-diff-notify loop verification

Shallow embedding of the change-detection / deduplication engine of the
MiloBot Discord bot (`src/bot/cogs/ai_news.py`, `minecraft_news.py`,
`sc_youtube.py`, `wow_patch_notes.py`, `rsi_status.py`), together with the
JSON persistence helpers, and proofs of the frozen claims about them.

Conventions of the embedding:
* Python strings are Lean `String`; substring tests (`kw in title`) are the
  executable `containsSub` on the underlying character lists.
* Python `dict` (insertion-ordered) is an association list; Python `set` is
  `Finset String`; Python `list` is `List String`.
* One invocation of a `@tasks.loop` body is a pure step function from a cog
  state and an environment (fetch outcome, channel lookup outcome, per-item
  notification outcomes) to a new state plus the list of successfully posted
  items and a flag recording whether the data file was rewritten.
* Exceptions are modelled by `Except Unit` for fetches and by small outcome
  inductives for notification attempts.
-/

/-! ## String helpers (Python `in`, `str.lower`, and the version regex) -/

/-- `litAt needle hay` is true when `needle` is a prefix of `hay`
(character-by-character comparison, as Python string equality). -/
def litAt : List Char → List Char → Bool
  | [], _ => true
  | _ :: _, [] => false
  | a :: as, b :: bs => a == b && litAt as bs

/-- `containsSub needle hay` models Python's `needle in hay` substring test. -/
def containsSub (needle : List Char) : List Char → Bool
  | [] => litAt needle []
  | b :: bs => litAt needle (b :: bs) || containsSub needle bs

/-- ASCII lowercasing of one character, modelling `str.lower` on the ASCII
titles the feeds produce. -/
def asciiLower (c : Char) : Char :=
  if 'A' ≤ c && c ≤ 'Z' then Char.ofNat (c.toNat + 32) else c

/-- `lowerStr` models `title.lower()`. -/
def lowerStr (s : List Char) : List Char := s.map asciiLower

/-- ASCII decimal digit, modelling the regex class `\d` on these feeds. -/
def isDigitCh (c : Char) : Bool := '0' ≤ c && c ≤ '9'

/-- Whitespace, modelling the regex class `\s` on these feeds. -/
def isSpaceCh (c : Char) : Bool :=
  c == ' ' || c == '\t' || c == '\n' || c == '\r' ||
  c == Char.ofNat 11 || c == Char.ofNat 12

/-- Consume at least one character satisfying `p`, then the maximal run of
them; `none` when the first character does not satisfy `p`.  This is the
deterministic reading of the regex pieces `\s+` and `\d+` in
`minecraft\s+\d+\.\d+` (maximal munch agrees with backtracking here because
the following literal can never satisfy `p`). -/
def munch1 (p : Char → Bool) : List Char → Option (List Char)
  | [] => none
  | c :: cs => if p c then some (cs.dropWhile p) else none

/-- Match `\s+\d+\.\d+` at the front of `cs` (the part of the version regex
after the literal `minecraft`). -/
def matchVersionTail (cs : List Char) : Bool :=
  match munch1 isSpaceCh cs with
  | none => false
  | some cs1 =>
    match munch1 isDigitCh cs1 with
    | none => false
    | some cs2 =>
      match cs2 with
      | '.' :: cs3 => (munch1 isDigitCh cs3).isSome
      | _ => false

/-- Drop a literal prefix, or fail. -/
def stripLit : List Char → List Char → Option (List Char)
  | [], cs => some cs
  | _ :: _, [] => none
  | l :: ls, c :: cs => if l == c then stripLit ls cs else none

/-- `versionSearch t` models `re.search(r"minecraft\s+\d+\.\d+", t)`:
some position of `t` starts the literal `minecraft` followed by
`\s+\d+\.\d+`. -/
def versionSearch : List Char → Bool
  | [] => false
  | c :: cs =>
    (match stripLit "minecraft".data (c :: cs) with
     | some rest => matchVersionTail rest
     | none => false) || versionSearch cs

/-! ## Minecraft news keyword filter (`minecraft_news._is_game_update`) -/

/-- `UPDATE_KEYWORDS` from `minecraft_news.py`. -/
def UPDATE_KEYWORDS : List String :=
  ["snapshot", "preview", "release", "patch", "update",
   "hotfix", "pre-release", "beta", "changelog"]

/-- `EXCLUDE_KEYWORDS` from `minecraft_news.py`. -/
def EXCLUDE_KEYWORDS : List String :=
  ["marketplace", "sale", "rewards", "community", "spotlight",
   "creator", "realms plus"]

/-- The `for keyword in KEYWORDS: if keyword in title_lower: return ...`
early-return loop shape: true when some keyword of the list occurs in `tl`. -/
def firstContained : List String → List Char → Bool
  | [], _ => false
  | kw :: rest, tl => if containsSub kw.data tl then true else firstContained rest tl

/-- `minecraft_news._is_game_update`, translated clause for clause:
exclusion loop, then inclusion loop, then the version regex. -/
def is_game_update (title : List Char) : Bool :=
  let tl := lowerStr title
  if firstContained EXCLUDE_KEYWORDS tl then false
  else if firstContained UPDATE_KEYWORDS tl then true
  else if versionSearch tl then true
  else false

theorem firstContained_eq_any (ks : List String) (tl : List Char) :
    firstContained ks tl = ks.any (fun kw => containsSub kw.data tl) := by
  induction ks with
  | nil => rfl
  | cons kw rest ih =>
    by_cases h : containsSub kw.data tl = true <;>
      simp [firstContained, List.any_cons, h, ih]

/-- **C10**: In `_is_game_update`, exclusion takes precedence over inclusion:
a title containing any exclude keyword (case-insensitively) yields `false`
even if it also contains an update keyword or the version pattern; and a
title containing no exclude keyword yields `true` iff it contains an update
keyword or matches `minecraft\s+\d+\.\d+`. -/
theorem c10_is_game_update_spec (title : List Char) :
    ((∃ kw ∈ EXCLUDE_KEYWORDS, containsSub kw.data (lowerStr title) = true) →
       is_game_update title = false) ∧
    ((∀ kw ∈ EXCLUDE_KEYWORDS, containsSub kw.data (lowerStr title) = false) →
       (is_game_update title = true ↔
         (∃ kw ∈ UPDATE_KEYWORDS, containsSub kw.data (lowerStr title) = true) ∨
           versionSearch (lowerStr title) = true)) := by
  constructor
  · rintro ⟨kw, hkw, hc⟩
    have hex : firstContained EXCLUDE_KEYWORDS (lowerStr title) = true := by
      rw [firstContained_eq_any]
      exact List.any_eq_true.mpr ⟨kw, hkw, hc⟩
    simp [is_game_update, hex]
  · intro hnone
    have hex : firstContained EXCLUDE_KEYWORDS (lowerStr title) = false := by
      rw [firstContained_eq_any]
      refine List.any_eq_false.mpr ?_
      intro kw hkw
      simp [hnone kw hkw]
    simp only [is_game_update, hex, firstContained_eq_any, Bool.false_eq_true,
      if_false]
    by_cases h1 : List.any UPDATE_KEYWORDS
        (fun kw => containsSub kw.data (lowerStr title)) = true
    · have h1' := List.any_eq_true.mp h1
      simp only [h1, if_true]
      exact iff_of_true trivial (Or.inl h1')
    · have h1'' : ∀ kw ∈ UPDATE_KEYWORDS,
          ¬ containsSub kw.data (lowerStr title) = true := by
        intro kw hkw hc
        exact h1 (List.any_eq_true.mpr ⟨kw, hkw, hc⟩)
      simp only [Bool.not_eq_true] at h1
      simp only [h1, Bool.false_eq_true, if_false]
      by_cases h2 : versionSearch (lowerStr title) = true
      · simp [h2]
      · simp only [Bool.not_eq_true] at h2
        simp only [h2, Bool.false_eq_true, if_false]
        constructor
        · intro h; exact absurd h (by simp)
        · rintro (⟨kw, hkw, hc⟩ | hv)
          · exact absurd hc (h1'' kw hkw)
          · exact absurd hv (by simp [h2])

/-! ## Minecraft news cog (`minecraft_news.MinecraftNews.check_minecraft_news`)

State: `self.seen` (a Python list of URLs) and the in-memory `self._first_run`
flag.  Environment of one loop invocation: the outcome of `_fetch_articles`,
whether `bot.get_channel` finds the channel, and the outcome of each
`_post_article` call (its exception is swallowed per item). -/

structure MCArticle where
  title : String
  url : String
deriving DecidableEq, Repr

structure MCState where
  seen : List String
  firstRun : Bool
deriving DecidableEq, Repr

inductive MCNotify where
  | ok : MCNotify
  | errored : MCNotify
deriving DecidableEq, Repr

structure MCEnv where
  fetch : Except Unit (List MCArticle)
  channelFound : Bool
  notify : MCArticle → MCNotify

structure MCResult where
  state : MCState
  posts : List MCArticle
  saved : Bool

/-- The first-run seeding loop:
`for article in articles: if url not in self.seen: self.seen.append(url)`. -/
def mcSeed (seen : List String) (articles : List MCArticle) : List String :=
  articles.foldl (fun acc a => if a.url ∈ acc then acc else acc ++ [a.url]) seen

/-- The notification loop over `new_articles`: `_post_article` is attempted
(its exception caught and logged), then the URL is appended unconditionally.
Returns the final `self.seen` and the successfully posted articles. -/
def mcNotifyLoop (ntf : MCArticle → MCNotify) :
    List String → List MCArticle → List String × List MCArticle
  | seen, [] => (seen, [])
  | seen, a :: rest =>
    let postedHere : List MCArticle :=
      match ntf a with
      | .ok => [a]
      | .errored => []
    let r := mcNotifyLoop ntf (seen ++ [a.url]) rest
    (r.1, postedHere ++ r.2)

/-- One invocation of `check_minecraft_news`. -/
def mcCheck (s : MCState) (env : MCEnv) : MCResult :=
  match env.fetch with
  | .error _ => ⟨s, [], false⟩
  | .ok articles =>
    let newArticles := articles.filter
      (fun a => !(decide (a.url ∈ s.seen)) && is_game_update a.title.data)
    if s.firstRun then
      ⟨⟨mcSeed s.seen articles, false⟩, [], true⟩
    else if newArticles.isEmpty then ⟨s, [], false⟩
    else if !env.channelFound then ⟨s, [], false⟩
    else
      let r := mcNotifyLoop env.notify s.seen newArticles
      ⟨⟨r.1, false⟩, r.2, true⟩

/-- A run of successive loop invocations, collecting all posted articles. -/
def mcRun : MCState → List MCEnv → MCState × List MCArticle
  | s, [] => (s, [])
  | s, e :: es =>
    let r := mcCheck s e
    let rest := mcRun r.state es
    (rest.1, r.posts ++ rest.2)

theorem mcNotifyLoop_seen_mono (ntf : MCArticle → MCNotify) (k : String) :
    ∀ (l : List MCArticle) (seen : List String),
      k ∈ seen → k ∈ (mcNotifyLoop ntf seen l).1 := by
  intro l
  induction l with
  | nil => intro seen h; exact h
  | cons a rest ih =>
    intro seen h
    exact ih (seen ++ [a.url]) (List.mem_append_left _ h)

theorem mcNotifyLoop_url_mem (ntf : MCArticle → MCNotify) (a : MCArticle) :
    ∀ (l : List MCArticle) (seen : List String),
      a ∈ l → a.url ∈ (mcNotifyLoop ntf seen l).1 := by
  intro l
  induction l with
  | nil => intro seen h; cases h
  | cons b rest ih =>
    intro seen h
    rcases List.mem_cons.mp h with h | h
    · subst h
      exact mcNotifyLoop_seen_mono ntf a.url rest (seen ++ [a.url])
        (List.mem_append_right _ (List.mem_singleton.mpr rfl))
    · exact ih (seen ++ [b.url]) h

theorem mcNotifyLoop_posts_sub (ntf : MCArticle → MCNotify) :
    ∀ (l : List MCArticle) (seen : List String) (a : MCArticle),
      a ∈ (mcNotifyLoop ntf seen l).2 → a ∈ l := by
  intro l
  induction l with
  | nil => intro seen a h; cases h
  | cons b rest ih =>
    intro seen a h
    simp only [mcNotifyLoop] at h
    rcases List.mem_append.mp h with h | h
    · cases hn : ntf b <;> rw [hn] at h
      · exact List.mem_cons.mpr (Or.inl (List.mem_singleton.mp h))
      · cases h
    · exact List.mem_cons.mpr (Or.inr (ih (seen ++ [b.url]) a h))

theorem mcSeed_mono (k : String) :
    ∀ (articles : List MCArticle) (seen : List String),
      k ∈ seen → k ∈ mcSeed seen articles := by
  intro articles
  induction articles with
  | nil => intro seen h; exact h
  | cons a rest ih =>
    intro seen h
    simp only [mcSeed, List.foldl_cons]
    by_cases hm : a.url ∈ seen
    · simpa [mcSeed, hm] using ih seen h
    · simpa [mcSeed, hm] using ih (seen ++ [a.url]) (List.mem_append_left _ h)

theorem mcSeed_mem (a : MCArticle) :
    ∀ (articles : List MCArticle) (seen : List String),
      a ∈ articles → a.url ∈ mcSeed seen articles := by
  intro articles
  induction articles with
  | nil => intro seen h; cases h
  | cons b rest ih =>
    intro seen h
    rcases List.mem_cons.mp h with h | h
    · subst h
      simp only [mcSeed, List.foldl_cons]
      by_cases hm : a.url ∈ seen
      · simpa [mcSeed, hm] using mcSeed_mono a.url rest seen hm
      · simpa [mcSeed, hm] using
          mcSeed_mono a.url rest (seen ++ [a.url])
            (List.mem_append_right _ (List.mem_singleton.mpr rfl))
    · simp only [mcSeed, List.foldl_cons]
      by_cases hm : b.url ∈ seen <;> simpa [mcSeed, hm] using ih _ h

theorem mcCheck_seen_mono (s : MCState) (env : MCEnv) (k : String)
    (h : k ∈ s.seen) : k ∈ (mcCheck s env).state.seen := by
  cases hf : env.fetch with
  | error e => simpa [mcCheck, hf] using h
  | ok articles =>
    simp only [mcCheck, hf]
    by_cases h1 : s.firstRun
    · simpa [h1] using mcSeed_mono k articles s.seen h
    · by_cases h2 : (articles.filter
        (fun a => !(decide (a.url ∈ s.seen)) && is_game_update a.title.data)).isEmpty
      · simpa [h1, h2] using h
      · by_cases h3 : env.channelFound
        · simpa [h1, h2, h3] using
            mcNotifyLoop_seen_mono env.notify k _ s.seen h
        · simpa [h1, h2, h3] using h

theorem mcCheck_posts_not_seen (s : MCState) (env : MCEnv) (a : MCArticle)
    (h : a ∈ (mcCheck s env).posts) : a.url ∉ s.seen := by
  cases hf : env.fetch with
  | error e => rw [mcCheck, hf] at h; cases h
  | ok articles =>
    rw [mcCheck, hf] at h
    by_cases h1 : s.firstRun
    · simp [h1] at h
    · by_cases h2 : (articles.filter
        (fun a => !(decide (a.url ∈ s.seen)) && is_game_update a.title.data)).isEmpty
      · simp [h1, h2] at h
      · by_cases h3 : env.channelFound
        · simp only [h1, h2, h3, if_false, if_true, Bool.not_true,
            Bool.false_eq_true] at h
          have hmem := mcNotifyLoop_posts_sub env.notify _ s.seen a h
          have := List.of_mem_filter hmem
          simp only [Bool.and_eq_true, Bool.not_eq_true', decide_eq_false_iff_not] at this
          exact this.1
        · simp [h1, h2, h3] at h

/-! ## AI news cog (`ai_news.AINews.check_ai_news`)

State: `self.seen` is a Python dict mapping a provider name to the list of
seen article URLs, modelled as an insertion-ordered association list.
Environment: the four per-provider results of the `asyncio.gather` with
`return_exceptions=True` (each an article list or an exception), the
channel lookup, and the outcome of the per-article filter/post attempt. -/

structure Article where
  title : String
  url : String
  description : String
deriving DecidableEq, Repr

/-- Python `dict[str, list[str]]` preserving insertion order. -/
abbrev SeenMap := List (String × List String)

/-- `self.seen.get(provider, [])`. -/
def seenGet : SeenMap → String → List String
  | [], _ => []
  | (k', vs) :: rest, k => if k' = k then vs else seenGet rest k

/-- `self.seen.setdefault(provider, []).append(url)`. -/
def seenAppend : SeenMap → String → String → SeenMap
  | [], k, v => [(k, [v])]
  | (k', vs) :: rest, k, v =>
    if k' = k then (k', vs ++ [v]) :: rest else (k', vs) :: seenAppend rest k v

structure AIState where
  seen : SeenMap
  firstRun : Bool
deriving DecidableEq, Repr

/-- Outcome of the `_filter_article` / `_post_article` attempt for one new
article: the filter said YES and the post succeeded; the filter said NO
(nothing posted, no error); or an exception was raised somewhere in the
`try` block (caught and logged). -/
inductive AINotify where
  | posted : AINotify
  | skipped : AINotify
  | errored : AINotify
deriving DecidableEq, Repr

structure AIEnv where
  results : List (Except Unit (List Article))
  channelFound : Bool
  notify : String → Article → AINotify

structure AIResult where
  state : AIState
  posts : List (String × Article)
  saved : Bool

def aiProviders : List String := ["openai", "google", "anthropic", "microsoft"]

/-- The collection loop over `zip(providers, results)`: an exception result
is logged and skipped, otherwise every article whose URL is not in
`self.seen.get(provider, [])` joins `all_new`. -/
def aiCollectNew (seen : SeenMap) :
    List (String × Except Unit (List Article)) → List (String × Article)
  | [] => []
  | (_, Except.error _) :: rest => aiCollectNew seen rest
  | (p, Except.ok arts) :: rest =>
    (arts.filter (fun a => !(decide (a.url ∈ seenGet seen p)))).map (fun a => (p, a))
      ++ aiCollectNew seen rest

/-- The first-run seeding loop: append every new article's URL under its
provider. -/
def aiSeed (seen : SeenMap) (allNew : List (String × Article)) : SeenMap :=
  allNew.foldl (fun m pa => seenAppend m pa.1 pa.2.url) seen

/-- The notification loop over `all_new`: attempt filter/post inside a
`try/except`, then append the URL to `self.seen` unconditionally. -/
def aiNotifyLoop (ntf : String → Article → AINotify) :
    SeenMap → List (String × Article) → SeenMap × List (String × Article)
  | seen, [] => (seen, [])
  | seen, (p, a) :: rest =>
    let postedHere : List (String × Article) :=
      match ntf p a with
      | .posted => [(p, a)]
      | .skipped => []
      | .errored => []
    let r := aiNotifyLoop ntf (seenAppend seen p a.url) rest
    (r.1, postedHere ++ r.2)

/-- One invocation of `check_ai_news`. -/
def aiCheck (s : AIState) (env : AIEnv) : AIResult :=
  let pairs := aiProviders.zip env.results
  let allNew := aiCollectNew s.seen pairs
  if s.firstRun then
    ⟨⟨aiSeed s.seen allNew, false⟩, [], true⟩
  else if allNew.isEmpty then ⟨s, [], false⟩
  else if !env.channelFound then ⟨s, [], false⟩
  else
    let r := aiNotifyLoop env.notify s.seen allNew
    ⟨⟨r.1, false⟩, r.2, true⟩

theorem seenGet_seenAppend (m : SeenMap) (k v k' : String) :
    seenGet (seenAppend m k v) k' =
      if k' = k then seenGet m k ++ [v] else seenGet m k' := by
  induction m with
  | nil =>
    by_cases h : k' = k
    · subst h; simp [seenAppend, seenGet]
    · have h' : ¬ k = k' := fun hh => h hh.symm
      simp [seenAppend, seenGet, h, h']
  | cons kv rest ih =>
    obtain ⟨k0, vs0⟩ := kv
    by_cases h0 : k0 = k
    · by_cases h : k' = k
      · have hk0 : k0 = k' := by rw [h0, h]
        simp [seenAppend, seenGet, h0, h, hk0]
      · have hk0 : ¬ k0 = k' := fun hh => h (by rw [← hh, h0])
        have h' : ¬ k = k' := fun hh => h hh.symm
        simp [seenAppend, seenGet, h0, h, hk0, h']
    · by_cases h : k' = k
      · subst h
        simp [seenAppend, seenGet, h0, ih]
      · by_cases h2 : k0 = k'
        · simp [seenAppend, seenGet, h0, h, h2]
        · simp [seenAppend, seenGet, h0, h, h2, ih]

theorem mem_seenGet_seenAppend (m : SeenMap) (k v k' x : String)
    (h : x ∈ seenGet m k') : x ∈ seenGet (seenAppend m k v) k' := by
  rw [seenGet_seenAppend]
  by_cases hk : k' = k
  · subst hk; simpa using Or.inl h
  · simpa [hk] using h

theorem seenAppend_self_mem (m : SeenMap) (k v : String) :
    v ∈ seenGet (seenAppend m k v) k := by
  rw [seenGet_seenAppend]
  simp

theorem aiNotifyLoop_seen_mono (ntf : String → Article → AINotify)
    (q x : String) :
    ∀ (l : List (String × Article)) (seen : SeenMap),
      x ∈ seenGet seen q → x ∈ seenGet (aiNotifyLoop ntf seen l).1 q := by
  intro l
  induction l with
  | nil => intro seen h; exact h
  | cons pa rest ih =>
    obtain ⟨p, a⟩ := pa
    intro seen h
    exact ih (seenAppend seen p a.url) (mem_seenGet_seenAppend _ _ _ _ _ h)

theorem aiNotifyLoop_url_mem (ntf : String → Article → AINotify)
    (p : String) (a : Article) :
    ∀ (l : List (String × Article)) (seen : SeenMap),
      (p, a) ∈ l → a.url ∈ seenGet (aiNotifyLoop ntf seen l).1 p := by
  intro l
  induction l with
  | nil => intro seen h; cases h
  | cons pb rest ih =>
    obtain ⟨q, b⟩ := pb
    intro seen h
    rcases List.mem_cons.mp h with h | h
    · obtain ⟨h1, h2⟩ := Prod.mk.injEq .. ▸ h
      subst h1; subst h2
      exact aiNotifyLoop_seen_mono ntf p a.url rest _
        (seenAppend_self_mem seen p a.url)
    · exact ih (seenAppend seen q b.url) h

theorem aiNotifyLoop_posted_mem (ntf : String → Article → AINotify)
    (p : String) (a : Article) :
    ∀ (l : List (String × Article)) (seen : SeenMap),
      (p, a) ∈ l → ntf p a = .posted → (p, a) ∈ (aiNotifyLoop ntf seen l).2 := by
  intro l
  induction l with
  | nil => intro seen h _; cases h
  | cons pb rest ih =>
    obtain ⟨q, b⟩ := pb
    intro seen h hp
    simp only [aiNotifyLoop]
    rcases List.mem_cons.mp h with h | h
    · obtain ⟨h1, h2⟩ := Prod.mk.injEq .. ▸ h
      subst h1; subst h2
      rw [hp]
      exact List.mem_append_left _ (List.mem_singleton.mpr rfl)
    · exact List.mem_append_right _ (ih (seenAppend seen q b.url) h hp)

theorem aiSeed_mono (q x : String) :
    ∀ (l : List (String × Article)) (seen : SeenMap),
      x ∈ seenGet seen q → x ∈ seenGet (aiSeed seen l) q := by
  intro l
  induction l with
  | nil => intro seen h; exact h
  | cons pa rest ih =>
    intro seen h
    simpa [aiSeed] using
      ih (seenAppend seen pa.1 pa.2.url) (mem_seenGet_seenAppend _ _ _ _ _ h)

theorem aiSeed_mem (p : String) (a : Article) :
    ∀ (l : List (String × Article)) (seen : SeenMap),
      (p, a) ∈ l → a.url ∈ seenGet (aiSeed seen l) p := by
  intro l
  induction l with
  | nil => intro seen h; cases h
  | cons pb rest ih =>
    intro seen h
    rcases List.mem_cons.mp h with h | h
    · subst h
      simpa [aiSeed] using
        aiSeed_mono p a.url rest _ (seenAppend_self_mem seen p a.url)
    · simpa [aiSeed] using ih (seenAppend seen pb.1 pb.2.url) h

theorem aiCollectNew_mem (seen : SeenMap) (p : String) (a : Article)
    (arts : List Article) :
    ∀ (pairs : List (String × Except Unit (List Article))),
      (p, Except.ok arts) ∈ pairs → a ∈ arts → a.url ∉ seenGet seen p →
        (p, a) ∈ aiCollectNew seen pairs := by
  intro pairs
  induction pairs with
  | nil => intro h _ _; cases h
  | cons pr rest ih =>
    obtain ⟨q, r⟩ := pr
    intro h ha hn
    rcases List.mem_cons.mp h with heq | hmem
    · obtain ⟨h1, h2⟩ := Prod.mk.injEq .. ▸ heq
      subst h1; subst h2
      simp only [aiCollectNew]
      refine List.mem_append_left _ ?_
      exact List.mem_map.mpr ⟨a, List.mem_filter.mpr ⟨ha, by simpa using hn⟩, rfl⟩
    · cases r with
      | error e => exact ih hmem ha hn
      | ok arts' =>
        exact List.mem_append_right _ (ih hmem ha hn)

/-! ## JSON persistence (`_load_seen` / `_save_seen`, `_load_seen_ids` /
`_save_seen_ids`)

`json.dump` / `json.load` are modelled at the level of JSON values: saving
produces the `Json` tree the cog writes, loading interprets a `FileRead`
outcome exactly as the Python `try/except (json.JSONDecodeError, OSError)`
blocks do.  In the `.parsed` case the typed reading returns `none` where
Python would hand back a value of a shape the cog never writes; that case is
outside every claim. -/

inductive Json where
  | str : String → Json
  | arr : List Json → Json
  | obj : List (String × Json) → Json

/-- Outcome of opening and parsing a data file: file absent, `OSError`
while reading, `json.JSONDecodeError`, or a successfully parsed value. -/
inductive FileRead where
  | missing : FileRead
  | osError : FileRead
  | badJson : FileRead
  | parsed : Json → FileRead

/-- Read a JSON array of strings. -/
def jsonToStrList : Json → Option (List String)
  | Json.arr xs =>
      xs.foldr (fun j acc =>
        match j, acc with
        | Json.str s, some l => some (s :: l)
        | _, _ => none) (some [])
  | _ => none

/-- Read a JSON object of string arrays (the `ai_news` data file shape). -/
def jsonToSeenMap : Json → Option SeenMap
  | Json.obj kvs =>
      kvs.foldr (fun kv acc =>
        match jsonToStrList kv.2, acc with
        | some l, some m => some ((kv.1, l) :: m)
        | _, _ => none) (some [])
  | _ => none

/-- `ai_news._save_seen`: `json.dump(seen, f, indent=2)`. -/
def aiSaveSeen (m : SeenMap) : Json :=
  Json.obj (m.map (fun kv => (kv.1, Json.arr (kv.2.map Json.str))))

/-- `ai_news._load_seen`: `{}` when the file is absent, and
`except (json.JSONDecodeError, OSError): return {}`. -/
def aiLoadSeen : FileRead → Option SeenMap
  | .missing => some []
  | .osError => some []
  | .badJson => some []
  | .parsed j => jsonToSeenMap j

/-- `AINews.__init__`: `self.seen = _load_seen(); self._first_run = not self.seen`. -/
def aiInit (f : FileRead) : Option AIState :=
  (aiLoadSeen f).map (fun m => ⟨m, m.isEmpty⟩)

/-- `minecraft_news._save_seen`: `json.dump(seen, f, indent=2)`. -/
def mcSaveSeen (seen : List String) : Json :=
  Json.arr (seen.map Json.str)

/-- `minecraft_news._load_seen`: `[]` when the file is absent, and
`except (json.JSONDecodeError, OSError): return []`. -/
def mcLoadSeen : FileRead → Option (List String)
  | .missing => some []
  | .osError => some []
  | .badJson => some []
  | .parsed j => jsonToStrList j

/-- `MinecraftNews.__init__`: `self.seen = _load_seen(); self._first_run = not self.seen`. -/
def mcInit (f : FileRead) : Option MCState :=
  (mcLoadSeen f).map (fun l => ⟨l, l.isEmpty⟩)

theorem jsonToStrList_roundtrip (l : List String) :
    jsonToStrList (Json.arr (l.map Json.str)) = some l := by
  induction l with
  | nil => rfl
  | cons s rest ih =>
    simp only [jsonToStrList, List.map_cons, List.foldr_cons]
    have : (Json.arr (rest.map Json.str)) = Json.arr (rest.map Json.str) := rfl
    simp only [jsonToStrList] at ih
    rw [ih]

theorem jsonToSeenMap_roundtrip (m : SeenMap) :
    jsonToSeenMap (aiSaveSeen m) = some m := by
  induction m with
  | nil => rfl
  | cons kv rest ih =>
    simp only [aiSaveSeen, jsonToSeenMap, List.map_cons, List.foldr_cons]
    simp only [aiSaveSeen, jsonToSeenMap] at ih
    rw [jsonToStrList_roundtrip, ih]

/-! ### Claim C1 -/

/-- **C1 counterexample**: after a process start that loads a non-empty
persisted seen set (here one already-seen article URL), `_first_run` is
`False`, so the very first successful fetch after process start notifies for
the unseen article instead of seeding silently. -/
theorem c1_counterexample :
    mcInit (FileRead.parsed (Json.arr [Json.str "https://www.minecraft.net/en-us/article/a"]))
        = some ⟨["https://www.minecraft.net/en-us/article/a"], false⟩ ∧
      (mcCheck ⟨["https://www.minecraft.net/en-us/article/a"], false⟩
          ⟨Except.ok
              [⟨"Minecraft 1.21 Update", "https://www.minecraft.net/en-us/article/a"⟩,
               ⟨"Minecraft 1.22 Update", "https://www.minecraft.net/en-us/article/b"⟩],
            true, fun _ => MCNotify.ok⟩).posts
        = [⟨"Minecraft 1.22 Update", "https://www.minecraft.net/en-us/article/b"⟩] := by
  constructor
  · rfl
  · rfl

theorem mcCheck_fetch_error (s : MCState) (env : MCEnv)
    (h : env.fetch = Except.error ()) : mcCheck s env = ⟨s, [], false⟩ := by
  simp only [mcCheck, h]

theorem mcRun_fail_prefix (e : MCEnv) :
    ∀ (envs : List MCEnv) (s : MCState),
      (∀ x ∈ envs, x.fetch = Except.error ()) →
      mcRun s (envs ++ [e]) = ((mcCheck s e).state, (mcCheck s e).posts) := by
  intro envs
  induction envs with
  | nil => intro s _; simp [mcRun]
  | cons x rest ih =>
    intro s hf
    have hx : mcCheck s x = ⟨s, [], false⟩ :=
      mcCheck_fetch_error s x (hf x (List.mem_cons_self _ _))
    simp only [List.cons_append, mcRun, hx, List.append_eq, List.nil_append]
    rw [ih s (fun y hy => hf y (List.mem_cons_of_mem _ hy))]

/-- **C1 (amended)**: provided the seen set loaded at construction is empty
(so `_first_run` is set), the first iteration whose fetch succeeds — after
any number of iterations whose fetch raised — is a silent seed in the
Minecraft cog: no notification for any of the N fetched items and all N
identities enter the persisted seen set, for every N ≥ 0.  In the
multi-provider ai_news cog the corresponding statement holds for the first
loop iteration: nothing is notified, the file is written, and every article
of every provider whose sub-fetch succeeded is seeded. -/
theorem c1_amended_first_success_seeds
    (envs : List MCEnv) (hfail : ∀ x ∈ envs, x.fetch = Except.error ())
    (e : MCEnv) (items : List MCArticle) (hok : e.fetch = Except.ok items)
    (aienv : AIEnv) :
    (mcRun ⟨[], true⟩ (envs ++ [e])).2 = [] ∧
    (mcRun ⟨[], true⟩ (envs ++ [e])).1 = ⟨mcSeed [] items, false⟩ ∧
    (mcCheck ⟨[], true⟩ e).saved = true ∧
    (∀ a ∈ items, a.url ∈ (mcRun ⟨[], true⟩ (envs ++ [e])).1.seen) ∧
    (aiCheck ⟨[], true⟩ aienv).posts = [] ∧
    (aiCheck ⟨[], true⟩ aienv).saved = true ∧
    (∀ p arts, (p, Except.ok arts) ∈ aiProviders.zip aienv.results →
      ∀ a ∈ arts, a.url ∈ seenGet (aiCheck ⟨[], true⟩ aienv).state.seen p) := by
  have hrun := mcRun_fail_prefix e envs ⟨[], true⟩ hfail
  have hstep : mcCheck ⟨[], true⟩ e = ⟨⟨mcSeed [] items, false⟩, [], true⟩ := by
    simp only [mcCheck, hok]
    rfl
  have haistep : aiCheck ⟨[], true⟩ aienv =
      ⟨⟨aiSeed [] (aiCollectNew [] (aiProviders.zip aienv.results)), false⟩,
        [], true⟩ := by
    simp [aiCheck]
  refine ⟨?_, ?_, ?_, ?_, ?_, ?_, ?_⟩
  · rw [hrun, hstep]
  · rw [hrun, hstep]
  · rw [hstep]
  · intro a ha
    rw [hrun, hstep]
    exact mcSeed_mem a items [] ha
  · rw [haistep]
  · rw [haistep]
  · intro p arts hmem a ha
    rw [haistep]
    exact aiSeed_mem p a _ []
      (aiCollectNew_mem [] p a arts _ hmem ha (by simp [seenGet]))

/-- **C1 witness**: the amended theorem applied to one failed-fetch
iteration followed by a successful fetch of one game-update article, and to
an ai_news first iteration with one succeeding provider. -/
theorem c1_witness :
    (mcRun ⟨[], true⟩
        ([⟨Except.error (), true, fun _ => MCNotify.ok⟩] ++
          [⟨Except.ok [⟨"Minecraft Snapshot 25W01A", "u1"⟩], true,
            fun _ => MCNotify.ok⟩])).2 = [] ∧
    (∀ a ∈ [MCArticle.mk "Minecraft Snapshot 25W01A" "u1"],
      a.url ∈ (mcRun ⟨[], true⟩
        ([⟨Except.error (), true, fun _ => MCNotify.ok⟩] ++
          [⟨Except.ok [⟨"Minecraft Snapshot 25W01A", "u1"⟩], true,
            fun _ => MCNotify.ok⟩])).1.seen) ∧
    (aiCheck ⟨[], true⟩
        ⟨[Except.ok [⟨"GPT-6", "https://openai.com/blog/gpt-6", ""⟩]], true,
          fun _ _ => AINotify.posted⟩).posts = [] := by
  have h := c1_amended_first_success_seeds
    [⟨Except.error (), true, fun _ => MCNotify.ok⟩]
    (by intro x hx; rcases List.mem_singleton.mp hx with rfl; rfl)
    ⟨Except.ok [⟨"Minecraft Snapshot 25W01A", "u1"⟩], true, fun _ => MCNotify.ok⟩
    [⟨"Minecraft Snapshot 25W01A", "u1"⟩] rfl
    ⟨[Except.ok [⟨"GPT-6", "https://openai.com/blog/gpt-6", ""⟩]], true,
      fun _ _ => AINotify.posted⟩
  exact ⟨h.1, h.2.2.2.1, h.2.2.2.2.1⟩

/-! ### Claim C4 (counterexample; the amended theorem follows the remaining
cog models below) -/

/-- **C4 counterexample**: in the ai_news cog a first-run iteration in which
three of the four provider fetches raise does *not* abort: the one
succeeding provider's article is seeded, the file is written and
`_first_run` is consumed — partial seeding, contradicting "a first-run
iteration whose fetch fails performs no partial seeding". -/
theorem c4_counterexample :
    (aiCheck ⟨[], true⟩
        ⟨[Except.error (), Except.ok [⟨"Gemini 3", "https://blog.google/g3", ""⟩],
          Except.error (), Except.error ()], true,
          fun _ _ => AINotify.posted⟩).state.seen
      = [("google", ["https://blog.google/g3"])] ∧
    (aiCheck ⟨[], true⟩
        ⟨[Except.error (), Except.ok [⟨"Gemini 3", "https://blog.google/g3", ""⟩],
          Except.error (), Except.error ()], true,
          fun _ _ => AINotify.posted⟩).saved = true ∧
    (aiCheck ⟨[], true⟩
        ⟨[Except.error (), Except.ok [⟨"Gemini 3", "https://blog.google/g3", ""⟩],
          Except.error (), Except.error ()], true,
          fun _ _ => AINotify.posted⟩).state.firstRun = false := by
  refine ⟨?_, rfl, rfl⟩
  rfl

/-! ## SC YouTube watcher cog (`sc_youtube.SCYouTubeWatcher.check_videos`)

State: `self.seen_video_ids` (a Python set) and `self._first_run`.
The whole loop body sits in one `try/except`, so a `_post_video` exception
aborts the remainder of the batch and skips `_save_seen_ids`. -/

structure Video where
  videoId : String
  title : String
deriving DecidableEq, Repr

structure SCState where
  seenIds : Finset String
  firstRun : Bool
deriving DecidableEq

inductive SCNotify where
  | ok : SCNotify
  | raised : SCNotify
deriving DecidableEq, Repr

structure SCEnv where
  fetch : Except Unit (List Video)
  channelFound : Bool
  notify : Video → SCNotify

structure SCResult where
  state : SCState
  posts : List Video
  saved : Bool

/-- The notification loop over `new_videos`: `_post_video` has no per-item
`try/except`, so a raising post returns control to the outer handler with
the already-added ids kept in memory, the remaining videos unprocessed and
the save skipped.  Returns (final seen ids, posted videos, completed?). -/
def scNotifyLoop (ntf : Video → SCNotify) :
    Finset String → List Video → Finset String × List Video × Bool
  | seen, [] => (seen, [], true)
  | seen, v :: rest =>
    match ntf v with
    | .raised => (seen, [], false)
    | .ok =>
      let r := scNotifyLoop ntf (insert v.videoId seen) rest
      (r.1, v :: r.2.1, r.2.2)

/-- One invocation of `check_videos`. -/
def scCheck (s : SCState) (env : SCEnv) : SCResult :=
  match env.fetch with
  | .error _ => ⟨s, [], false⟩
  | .ok videos =>
    if videos.isEmpty then
      ⟨⟨s.seenIds, false⟩, [], false⟩
    else if s.firstRun then
      ⟨⟨s.seenIds ∪ (videos.map (fun v => v.videoId)).toFinset, false⟩, [], true⟩
    else
      let newVideos := videos.filter (fun v => !(decide (v.videoId ∈ s.seenIds)))
      if newVideos.isEmpty then ⟨s, [], false⟩
      else if !env.channelFound then ⟨s, [], false⟩
      else
        let r := scNotifyLoop env.notify s.seenIds newVideos
        ⟨⟨r.1, false⟩, r.2.1, r.2.2⟩

/-- `sc_youtube._save_seen_ids`: `json.dump({"seen_video_ids": sorted(seen)})`. -/
def scSaveSeen (s : Finset String) : Json :=
  Json.obj [("seen_video_ids", Json.arr ((s.sort (· ≤ ·)).map Json.str))]

/-- Interpret a parsed data file as `set(data.get("seen_video_ids", []))`. -/
def scLoadSeenJson : Json → Option (Finset String)
  | Json.obj kvs =>
    match kvs.find? (fun kv => decide (kv.1 = "seen_video_ids")) with
    | some kv => (jsonToStrList kv.2).map List.toFinset
    | none => some ∅
  | _ => none

/-- `sc_youtube._load_seen_ids`: empty set when the file is absent, and
`except (json.JSONDecodeError, OSError): return set()`. -/
def scLoadSeen : FileRead → Option (Finset String)
  | .missing => some ∅
  | .osError => some ∅
  | .badJson => some ∅
  | .parsed j => scLoadSeenJson j

/-- `SCYouTubeWatcher.__init__`: `self.seen_video_ids = _load_seen_ids();
self._first_run = not self.seen_video_ids`. -/
def scInit (f : FileRead) : Option SCState :=
  (scLoadSeen f).map (fun st => ⟨st, decide (st = ∅)⟩)

/-! ## WoW patch notes cog (`wow_patch_notes.WoWPatchNotes.check_wow_patches`)

State: `self.seen_guids` and `self.seen_links` (Python sets, no data file)
and `self._first_run` (unconditionally `True` at construction).
`_post_summary` returns a success boolean and only on `True` are the guid
and link added — a failed notification is retried on later iterations. -/

structure WowItem where
  title : String
  link : String
  guid : String
deriving DecidableEq, Repr

structure WowState where
  seenGuids : Finset String
  seenLinks : Finset String
  firstRun : Bool
deriving DecidableEq

/-- Outcome of `_post_summary`: returned `True`; returned `False`
(empty content or summarization failure, caught inside); or raised
(e.g. `channel.send`), handled by the outer `try/except` which aborts the
rest of the batch. -/
inductive WowNotify where
  | success : WowNotify
  | failure : WowNotify
  | raised : WowNotify
deriving DecidableEq, Repr

structure WowEnv where
  fetch : Except Unit (List WowItem)
  channelFound : Bool
  notify : WowItem → WowNotify

/-- The notification loop over `new_items`:
`success = await self._post_summary(...); if success: add guid and link`. -/
def wowNotifyLoop (ntf : WowItem → WowNotify) :
    Finset String → Finset String → List WowItem →
      Finset String × Finset String × List WowItem
  | sg, sl, [] => (sg, sl, [])
  | sg, sl, it :: rest =>
    match ntf it with
    | .raised => (sg, sl, [])
    | .failure => wowNotifyLoop ntf sg sl rest
    | .success =>
      let r := wowNotifyLoop ntf (insert it.guid sg) (insert it.link sl) rest
      (r.1, r.2.1, it :: r.2.2)

/-- One invocation of `check_wow_patches` (items are already filtered by
`_is_patch_article` inside `_parse_rss`). -/
def wowCheck (s : WowState) (env : WowEnv) : WowState × List WowItem :=
  match env.fetch with
  | .error _ => (s, [])
  | .ok items =>
    if items.isEmpty then (s, [])
    else if s.firstRun then
      (⟨(items.map (fun it => it.guid)).toFinset,
        (items.map (fun it => it.link)).toFinset, false⟩, [])
    else
      let newItems := items.filter
        (fun it => !(decide (it.guid ∈ s.seenGuids)) && !(decide (it.link ∈ s.seenLinks)))
      if newItems.isEmpty then (s, [])
      else if !env.channelFound then (s, [])
      else
        let r := wowNotifyLoop env.notify s.seenGuids s.seenLinks newItems
        (⟨r.1, r.2.1, false⟩, r.2.2)

/-! ## RSI status cog (`rsi_status.RSIStatus.check_status`)

State: `self.seen_guids` — a Python dict mapping incident guid to the last
seen title (no data file) — and `self._first_run` (unconditionally `True`
at construction).  A guid with a changed title is re-posted. -/

structure RSIItem where
  title : String
  guid : String
deriving DecidableEq, Repr

/-- `self.seen_guids.get(guid)`. -/
def dictGet : List (String × String) → String → Option String
  | [], _ => none
  | (k', v) :: rest, k => if k' = k then some v else dictGet rest k

/-- `self.seen_guids[guid] = title`. -/
def dictSet : List (String × String) → String → String → List (String × String)
  | [], k, v => [(k, v)]
  | (k', v') :: rest, k, v =>
    if k' = k then (k', v) :: rest else (k', v') :: dictSet rest k v

structure RSIState where
  seenGuids : List (String × String)
  firstRun : Bool
deriving DecidableEq, Repr

inductive RSINotify where
  | ok : RSINotify
  | raised : RSINotify
deriving DecidableEq, Repr

structure RSIEnv where
  fetch : Except Unit (List RSIItem)
  channelFound : Bool
  notify : RSIItem → RSINotify

/-- The per-item loop of `check_status`: a brand-new guid, or a guid whose
stored title differs, is recorded (assignment happens before the post) and
posted; a raising `_post_update` aborts the rest via the outer handler. -/
def rsiLoop (ntf : RSIItem → RSINotify) :
    List (String × String) → List RSIItem →
      List (String × String) × List RSIItem
  | m, [] => (m, [])
  | m, it :: rest =>
    match dictGet m it.guid with
    | none =>
      let m' := dictSet m it.guid it.title
      match ntf it with
      | .raised => (m', [])
      | .ok =>
        let r := rsiLoop ntf m' rest
        (r.1, it :: r.2)
    | some prev =>
      if prev = it.title then rsiLoop ntf m rest
      else
        let m' := dictSet m it.guid it.title
        match ntf it with
        | .raised => (m', [])
        | .ok =>
          let r := rsiLoop ntf m' rest
          (r.1, it :: r.2)

/-- One invocation of `check_status`. -/
def rsiCheck (s : RSIState) (env : RSIEnv) : RSIState × List RSIItem :=
  match env.fetch with
  | .error _ => (s, [])
  | .ok items =>
    if items.isEmpty then (s, [])
    else if s.firstRun then
      (⟨items.foldl (fun m it => dictSet m it.guid it.title) [], false⟩, [])
    else if !env.channelFound then (s, [])
    else
      let r := rsiLoop env.notify s.seenGuids items
      (⟨r.1, false⟩, r.2)

/-! ### Claim C2 -/

/-- **C2 counterexample**: in the WoW patch-notes cog a new item whose
`_post_summary` returns `False` is *not* added to the seen sets — its key is
added only on notify success, so the failed notification is retried on a
later iteration, contradicting "added regardless of whether the
notification attempt succeeds or fails". -/
theorem c2_counterexample :
    (wowCheck ⟨∅, ∅, false⟩
        ⟨Except.ok [⟨"Patch 11.2 Hotfixes", "https://www.wowhead.com/news/n1", "g1"⟩],
          true, fun _ => WowNotify.failure⟩).1.seenGuids = ∅ ∧
    "g1" ∉ (wowCheck ⟨∅, ∅, false⟩
        ⟨Except.ok [⟨"Patch 11.2 Hotfixes", "https://www.wowhead.com/news/n1", "g1"⟩],
          true, fun _ => WowNotify.failure⟩).1.seenGuids := by
  refine ⟨rfl, ?_⟩
  decide

/-- **C2 (amended)**: in the ai_news cog (as in the Minecraft cog) every new
item of a non-first-run iteration has its identity key appended to the seen
map whatever the outcome of its filter/post attempt — a failed notification
is never retried there.  In the WoW patch-notes cog, by contrast, the key is
added only when `_post_summary` succeeds, so its failures are retried. -/
theorem c2_amended_marked_regardless (s : AIState) (env : AIEnv)
    (p : String) (a : Article)
    (hfr : s.firstRun = false) (hch : env.channelFound = true)
    (hmem : (p, a) ∈ aiCollectNew s.seen (aiProviders.zip env.results)) :
    a.url ∈ seenGet (aiCheck s env).state.seen p := by
  have hne : (aiCollectNew s.seen (aiProviders.zip env.results)).isEmpty = false := by
    cases h : aiCollectNew s.seen (aiProviders.zip env.results) with
    | nil => rw [h] at hmem; cases hmem
    | cons _ _ => rfl
  simp only [aiCheck, hfr, hne, hch, Bool.false_eq_true, if_false,
    Bool.not_true]
  exact aiNotifyLoop_url_mem env.notify p a _ s.seen hmem

/-- **C2 witness**: the amended theorem at a concrete non-first-run
iteration whose single new article's filter/post attempt raises. -/
theorem c2_witness :
    "https://openai.com/blog/u1" ∈
      seenGet (aiCheck ⟨[("openai", ["https://openai.com/blog/u0"])], false⟩
        ⟨[Except.ok [⟨"T", "https://openai.com/blog/u1", ""⟩]], true,
          fun _ _ => AINotify.errored⟩).state.seen "openai" :=
  c2_amended_marked_regardless
    ⟨[("openai", ["https://openai.com/blog/u0"])], false⟩
    ⟨[Except.ok [⟨"T", "https://openai.com/blog/u1", ""⟩]], true,
      fun _ _ => AINotify.errored⟩
    "openai" ⟨"T", "https://openai.com/blog/u1", ""⟩ rfl rfl (by decide)

/-! ### Claim C3 -/

/-- **C3 counterexample**: in the SC YouTube watcher a raising `_post_video`
for the first new video aborts the whole batch through the outer
`try/except`: the second new video is neither posted nor added to the seen
set in that iteration, contradicting "does not prevent the processing of
every subsequent item in the same batch". -/
theorem c3_counterexample :
    (scCheck ⟨∅, false⟩
        ⟨Except.ok [⟨"v1", "First"⟩, ⟨"v2", "Second"⟩], true,
          fun v => if v.videoId = "v1" then SCNotify.raised else SCNotify.ok⟩).posts
      = [] ∧
    (scCheck ⟨∅, false⟩
        ⟨Except.ok [⟨"v1", "First"⟩, ⟨"v2", "Second"⟩], true,
          fun v => if v.videoId = "v1" then SCNotify.raised else SCNotify.ok⟩).state.seenIds
      = ∅ ∧
    (scCheck ⟨∅, false⟩
        ⟨Except.ok [⟨"v1", "First"⟩, ⟨"v2", "Second"⟩], true,
          fun v => if v.videoId = "v1" then SCNotify.raised else SCNotify.ok⟩).saved
      = false := by
  refine ⟨rfl, rfl, rfl⟩

/-- **C3 (amended)**: in the ai_news cog (whose notification loop has a
per-item `try/except`) a failure for one new item is isolated: every new
item whose own filter/post attempt succeeds is posted, regardless of the
outcomes for the other items of the batch.  In the SC YouTube watcher a
raising post instead aborts the remainder of the batch (those items stay
unseen and are retried next iteration). -/
theorem c3_amended_failure_isolated (s : AIState) (env : AIEnv)
    (p : String) (a : Article)
    (hfr : s.firstRun = false) (hch : env.channelFound = true)
    (hmem : (p, a) ∈ aiCollectNew s.seen (aiProviders.zip env.results))
    (hpost : env.notify p a = AINotify.posted) :
    (p, a) ∈ (aiCheck s env).posts := by
  have hne : (aiCollectNew s.seen (aiProviders.zip env.results)).isEmpty = false := by
    cases h : aiCollectNew s.seen (aiProviders.zip env.results) with
    | nil => rw [h] at hmem; cases hmem
    | cons _ _ => rfl
  simp only [aiCheck, hfr, hne, hch, Bool.false_eq_true, if_false,
    Bool.not_true]
  exact aiNotifyLoop_posted_mem env.notify p a _ s.seen hmem hpost

/-- **C3 witness**: the amended theorem at a concrete batch of two new
articles where the first one's attempt raises and the second is posted. -/
theorem c3_witness :
    ("openai", Article.mk "B" "https://openai.com/blog/u2" "") ∈
      (aiCheck ⟨[("openai", ["https://openai.com/blog/u0"])], false⟩
        ⟨[Except.ok [⟨"A", "https://openai.com/blog/u1", ""⟩,
                     ⟨"B", "https://openai.com/blog/u2", ""⟩]], true,
          fun _ a => if a.url = "https://openai.com/blog/u1"
            then AINotify.errored else AINotify.posted⟩).posts :=
  c3_amended_failure_isolated
    ⟨[("openai", ["https://openai.com/blog/u0"])], false⟩
    ⟨[Except.ok [⟨"A", "https://openai.com/blog/u1", ""⟩,
                 ⟨"B", "https://openai.com/blog/u2", ""⟩]], true,
      fun _ a => if a.url = "https://openai.com/blog/u1"
        then AINotify.errored else AINotify.posted⟩
    "openai" ⟨"B", "https://openai.com/blog/u2", ""⟩ rfl rfl (by decide) (by decide)

/-! ### Claim C4 (amended theorem) -/

/-- **C4 (amended)**: in every single-fetch cog (Minecraft news, SC YouTube,
WoW patch notes, RSI status) an iteration whose fetch raises aborts whole:
the state — seen set and `_first_run` flag — is exactly unchanged, nothing
is posted and nothing is written to disk, so a failed first-run fetch
performs no seeding at all.  In the multi-source ai_news cog a raising
sub-fetch only skips that provider (see the counterexample). -/
theorem c4_amended_fetch_error_aborts (s1 : MCState) (e1 : MCEnv)
    (s2 : SCState) (e2 : SCEnv) (s3 : WowState) (e3 : WowEnv)
    (s4 : RSIState) (e4 : RSIEnv)
    (h1 : e1.fetch = Except.error ()) (h2 : e2.fetch = Except.error ())
    (h3 : e3.fetch = Except.error ()) (h4 : e4.fetch = Except.error ()) :
    mcCheck s1 e1 = ⟨s1, [], false⟩ ∧
    scCheck s2 e2 = ⟨s2, [], false⟩ ∧
    wowCheck s3 e3 = (s3, []) ∧
    rsiCheck s4 e4 = (s4, []) := by
  refine ⟨mcCheck_fetch_error s1 e1 h1, ?_, ?_, ?_⟩
  · simp only [scCheck, h2]
  · simp only [wowCheck, h3]
  · simp only [rsiCheck, h4]

/-- **C4 witness**: the amended theorem at concrete first-run states with a
raising fetch: each state survives untouched. -/
theorem c4_witness :
    mcCheck ⟨["u"], true⟩ ⟨Except.error (), true, fun _ => MCNotify.ok⟩
      = ⟨⟨["u"], true⟩, [], false⟩ ∧
    scCheck ⟨∅, true⟩ ⟨Except.error (), true, fun _ => SCNotify.ok⟩
      = ⟨⟨∅, true⟩, [], false⟩ ∧
    wowCheck ⟨∅, ∅, true⟩ ⟨Except.error (), true, fun _ => WowNotify.success⟩
      = (⟨∅, ∅, true⟩, []) ∧
    rsiCheck ⟨[], true⟩ ⟨Except.error (), true, fun _ => RSINotify.ok⟩
      = (⟨[], true⟩, []) :=
  c4_amended_fetch_error_aborts ⟨["u"], true⟩ _ ⟨∅, true⟩ _ ⟨∅, ∅, true⟩ _
    ⟨[], true⟩ _ rfl rfl rfl rfl

/-! ### Claim C5 -/

theorem dictGet_dictSet (m : List (String × String)) (k v k' : String) :
    dictGet (dictSet m k v) k' = if k' = k then some v else dictGet m k' := by
  induction m with
  | nil =>
    by_cases h : k' = k
    · subst h; simp [dictSet, dictGet]
    · have h' : ¬ k = k' := fun hh => h hh.symm
      simp [dictSet, dictGet, h, h']
  | cons kv rest ih =>
    obtain ⟨k0, v0⟩ := kv
    by_cases h0 : k0 = k
    · by_cases h : k' = k
      · have hk0 : k0 = k' := by rw [h0, h]
        simp [dictSet, dictGet, h0, h, hk0]
      · have hk0 : ¬ k0 = k' := fun hh => h (by rw [← hh, h0])
        have h' : ¬ k = k' := fun hh => h hh.symm
        simp [dictSet, dictGet, h0, h, hk0, h']
    · by_cases h : k' = k
      · subst h
        simp [dictSet, dictGet, h0, ih]
      · by_cases h2 : k0 = k'
        · simp [dictSet, dictGet, h0, h, h2]
        · simp [dictSet, dictGet, h0, h, h2, ih]

theorem rsiLoop_posts_sub (ntf : RSIItem → RSINotify) :
    ∀ (its : List RSIItem) (m : List (String × String)) (a : RSIItem),
      a ∈ (rsiLoop ntf m its).2 → a ∈ its := by
  intro its
  induction its with
  | nil => intro m a h; cases h
  | cons x rest ih =>
    intro m a h
    simp only [rsiLoop] at h
    cases hg : dictGet m x.guid with
    | none =>
      rw [hg] at h
      cases hn : ntf x with
      | raised => rw [hn] at h; cases h
      | ok =>
        rw [hn] at h
        rcases List.mem_cons.mp h with h | h
        · exact List.mem_cons.mpr (Or.inl h)
        · exact List.mem_cons.mpr (Or.inr (ih _ a h))
    | some prev =>
      simp only [hg] at h
      by_cases hp : prev = x.title
      · rw [if_pos hp] at h
        exact List.mem_cons.mpr (Or.inr (ih m a h))
      · rw [if_neg hp] at h
        cases hn : ntf x with
        | raised => rw [hn] at h; cases h
        | ok =>
          rw [hn] at h
          rcases List.mem_cons.mp h with h | h
          · exact List.mem_cons.mpr (Or.inl h)
          · exact List.mem_cons.mpr (Or.inr (ih _ a h))

theorem rsiLoop_post_iff (ntf : RSIItem → RSINotify)
    (hok : ∀ it, ntf it = RSINotify.ok) :
    ∀ (its : List RSIItem) (m : List (String × String)),
      (its.map (fun it => it.guid)).Nodup →
      ∀ it ∈ its,
        (it ∈ (rsiLoop ntf m its).2 ↔ ¬ dictGet m it.guid = some it.title) := by
  intro its
  induction its with
  | nil => intro m _ it h; cases h
  | cons x rest ih =>
    intro m hnd it hit
    have hnd' := List.nodup_cons.mp hnd
    have hxrest : x ∉ rest := by
      intro hx
      exact hnd'.1 (List.mem_map.mpr ⟨x, hx, rfl⟩)
    rcases List.mem_cons.mp hit with rfl | hmem
    · cases hg : dictGet m it.guid with
      | none =>
        simp only [rsiLoop, hg, hok it]
        refine iff_of_true (List.mem_cons_self _ _) ?_
        simp
      | some prev =>
        by_cases hp : prev = it.title
        · subst hp
          simp only [rsiLoop, hg, if_pos rfl]
          refine iff_of_false ?_ (by simp)
          intro hin
          exact hxrest (rsiLoop_posts_sub ntf rest m it hin)
        · simp only [rsiLoop, hg, if_neg hp, hok it]
          refine iff_of_true (List.mem_cons_self _ _) ?_
          intro hh
          exact hp (Option.some.injEq .. ▸ hh)
    · have hgne : it.guid ≠ x.guid := by
        intro hh
        apply hnd'.1
        have hm : it.guid ∈ rest.map (fun y => y.guid) :=
          List.mem_map.mpr ⟨it, hmem, rfl⟩
        rw [hh] at hm
        simpa using hm
      have hitx : it ≠ x := fun hh => hgne (hh ▸ rfl)
      have hpreserve : ∀ t, dictGet (dictSet m x.guid t) it.guid = dictGet m it.guid := by
        intro t
        rw [dictGet_dictSet]
        exact if_neg hgne
      cases hg : dictGet m x.guid with
      | none =>
        simp only [rsiLoop, hg, hok x]
        rw [List.mem_cons]
        constructor
        · rintro (hh | hh)
          · exact absurd hh hitx
          · exact (hpreserve x.title) ▸ (ih _ hnd'.2 it hmem).mp hh
        · intro hh
          exact Or.inr ((ih _ hnd'.2 it hmem).mpr ((hpreserve x.title).symm ▸ hh))
      | some prev =>
        by_cases hp : prev = x.title
        · simp only [rsiLoop, hg, if_pos hp]
          exact ih m hnd'.2 it hmem
        · simp only [rsiLoop, hg, if_neg hp, hok x]
          rw [List.mem_cons]
          constructor
          · rintro (hh | hh)
            · exact absurd hh hitx
            · exact (hpreserve x.title) ▸ (ih _ hnd'.2 it hmem).mp hh
          · intro hh
            exact Or.inr ((ih _ hnd'.2 it hmem).mpr ((hpreserve x.title).symm ▸ hh))

/-- **C5**: an identity key already in the seen set is never notified again.
In the Minecraft cog this holds over any sequence of later iterations, even
when the article's title (display field) has changed, because identity is
the URL alone.  In the RSI status watcher the effective key is the pair
(guid, title): on a non-first-run iteration with a functioning channel and
notifications, a fetched incident is posted exactly when its guid is new or
its stored title differs — so an unchanged incident is never re-posted and a
status change (new synthetic key) is re-notified. -/
theorem c5_seen_never_renotified
    (s : MCState) (envs : List MCEnv) (url : String) (hseen : url ∈ s.seen)
    (rs : RSIState) (renv : RSIEnv) (items : List RSIItem)
    (hfr : rs.firstRun = false) (hch : renv.channelFound = true)
    (hfetch : renv.fetch = Except.ok items)
    (hne : items.isEmpty = false)
    (hnd : (items.map (fun it => it.guid)).Nodup)
    (hok : ∀ it, renv.notify it = RSINotify.ok) :
    (∀ a ∈ (mcRun s envs).2, a.url ≠ url) ∧
    (∀ it ∈ items,
      (it ∈ (rsiCheck rs renv).2 ↔ ¬ dictGet rs.seenGuids it.guid = some it.title)) := by
  constructor
  · induction envs generalizing s with
    | nil => intro a ha; cases ha
    | cons e rest ih =>
      intro a ha
      simp only [mcRun] at ha
      rcases List.mem_append.mp ha with ha | ha
      · intro heq
        exact mcCheck_posts_not_seen s e a ha (heq ▸ hseen)
      · exact ih (mcCheck s e).state (mcCheck_seen_mono s e url hseen) a ha
  · intro it hit
    have : rsiCheck rs renv = (⟨(rsiLoop renv.notify rs.seenGuids items).1, false⟩,
        (rsiLoop renv.notify rs.seenGuids items).2) := by
      simp only [rsiCheck, hfetch, hfr, hne, hch, Bool.false_eq_true, if_false,
        Bool.not_true]
    rw [this]
    exact rsiLoop_post_iff renv.notify hok items rs.seenGuids hnd it hit

/-- **C5 witness**: the theorem at a seen Minecraft URL (whose title later
changes) across one iteration, and at an RSI batch holding one unchanged and
one status-changed incident: the changed one is re-posted. -/
theorem c5_witness :
    (⟨"[Resolved] Server Down", "g1"⟩ : RSIItem) ∈
      (rsiCheck ⟨[("g1", "[Investigating] Server Down")], false⟩
        ⟨Except.ok [⟨"[Resolved] Server Down", "g1"⟩], true,
          fun _ => RSINotify.ok⟩).2 :=
  ((c5_seen_never_renotified
      ⟨["u"], false⟩
      [⟨Except.ok [⟨"Minecraft Update Changed Title", "u"⟩], true, fun _ => MCNotify.ok⟩]
      "u" (by decide)
      ⟨[("g1", "[Investigating] Server Down")], false⟩
      ⟨Except.ok [⟨"[Resolved] Server Down", "g1"⟩], true, fun _ => RSINotify.ok⟩
      [⟨"[Resolved] Server Down", "g1"⟩]
      rfl rfl rfl rfl (by decide) (fun _ => rfl)).2
    ⟨"[Resolved] Server Down", "g1"⟩ (by decide)).mpr (by decide)

/-! ### Claim C6 -/

theorem aiCheck_seen_mono (s : AIState) (env : AIEnv) (p x : String)
    (h : x ∈ seenGet s.seen p) : x ∈ seenGet (aiCheck s env).state.seen p := by
  simp only [aiCheck]
  by_cases h1 : s.firstRun
  · simpa [h1] using aiSeed_mono p x _ s.seen h
  · by_cases h2 : (aiCollectNew s.seen (aiProviders.zip env.results)).isEmpty
    · simpa [h1, h2] using h
    · by_cases h3 : env.channelFound
      · simpa [h1, h2, h3] using
          aiNotifyLoop_seen_mono env.notify p x _ s.seen h
      · simpa [h1, h2, h3] using h

theorem scNotifyLoop_seen_mono (ntf : Video → SCNotify) (x : String) :
    ∀ (l : List Video) (seen : Finset String),
      x ∈ seen → x ∈ (scNotifyLoop ntf seen l).1 := by
  intro l
  induction l with
  | nil => intro seen h; exact h
  | cons v rest ih =>
    intro seen h
    cases hn : ntf v with
    | raised => simpa [scNotifyLoop, hn] using h
    | ok =>
      simpa [scNotifyLoop, hn] using
        ih (insert v.videoId seen) (Finset.mem_insert_of_mem h)

theorem scCheck_seen_mono (s : SCState) (env : SCEnv) (x : String)
    (h : x ∈ s.seenIds) : x ∈ (scCheck s env).state.seenIds := by
  cases hf : env.fetch with
  | error e => simpa [scCheck, hf] using h
  | ok videos =>
    simp only [scCheck, hf]
    by_cases h0 : videos.isEmpty
    · simpa [h0] using h
    · by_cases h1 : s.firstRun
      · simp only [h0, h1, Bool.false_eq_true, if_false, if_true]
        simp only [Finset.mem_union]
        exact Or.inl h
      · by_cases h2 : (videos.filter
            (fun v => !(decide (v.videoId ∈ s.seenIds)))).isEmpty
        · simpa [h0, h1, h2] using h
        · by_cases h3 : env.channelFound
          · simpa [h0, h1, h2, h3] using
              scNotifyLoop_seen_mono env.notify x _ s.seenIds h
          · simpa [h0, h1, h2, h3] using h

theorem wowNotifyLoop_mono (ntf : WowItem → WowNotify) (g l' : String) :
    ∀ (l : List WowItem) (sg sl : Finset String),
      g ∈ sg → l' ∈ sl →
      g ∈ (wowNotifyLoop ntf sg sl l).1 ∧ l' ∈ (wowNotifyLoop ntf sg sl l).2.1 := by
  intro l
  induction l with
  | nil => intro sg sl hg hl; exact ⟨hg, hl⟩
  | cons it rest ih =>
    intro sg sl hg hl
    cases hn : ntf it with
    | raised => simpa [wowNotifyLoop, hn] using ⟨hg, hl⟩
    | failure => simpa [wowNotifyLoop, hn] using ih sg sl hg hl
    | success =>
      simpa [wowNotifyLoop, hn] using
        ih (insert it.guid sg) (insert it.link sl)
          (Finset.mem_insert_of_mem hg) (Finset.mem_insert_of_mem hl)

theorem wowCheck_mono (s : WowState) (env : WowEnv) (g l : String)
    (hg : g ∈ s.seenGuids) (hl : l ∈ s.seenLinks)
    (hinv : s.firstRun = true → s.seenGuids = ∅) :
    g ∈ (wowCheck s env).1.seenGuids ∧ l ∈ (wowCheck s env).1.seenLinks := by
  cases hf : env.fetch with
  | error e => simpa [wowCheck, hf] using ⟨hg, hl⟩
  | ok items =>
    simp only [wowCheck, hf]
    by_cases h0 : items.isEmpty
    · simpa [h0] using ⟨hg, hl⟩
    · by_cases h1 : s.firstRun
      · exact absurd ((hinv h1) ▸ hg) (Finset.not_mem_empty g)
      · by_cases h2 : (items.filter (fun it =>
            !(decide (it.guid ∈ s.seenGuids)) && !(decide (it.link ∈ s.seenLinks)))).isEmpty
        · simpa [h0, h1, h2] using ⟨hg, hl⟩
        · by_cases h3 : env.channelFound
          · simpa [h0, h1, h2, h3] using
              wowNotifyLoop_mono env.notify g l _ s.seenGuids s.seenLinks hg hl
          · simpa [h0, h1, h2, h3] using ⟨hg, hl⟩

theorem dictSet_isSome_mono (m : List (String × String)) (k k' v : String)
    (h : (dictGet m k).isSome) : (dictGet (dictSet m k' v) k).isSome := by
  rw [dictGet_dictSet]
  by_cases hk : k = k'
  · simp [hk]
  · simpa [hk] using h

theorem rsiLoop_key_mono (ntf : RSIItem → RSINotify) (k : String) :
    ∀ (its : List RSIItem) (m : List (String × String)),
      (dictGet m k).isSome → (dictGet (rsiLoop ntf m its).1 k).isSome := by
  intro its
  induction its with
  | nil => intro m h; exact h
  | cons x rest ih =>
    intro m h
    cases hg : dictGet m x.guid with
    | none =>
      cases hn : ntf x with
      | raised =>
        simpa [rsiLoop, hg, hn] using dictSet_isSome_mono m k x.guid x.title h
      | ok =>
        simpa [rsiLoop, hg, hn] using
          ih (dictSet m x.guid x.title) (dictSet_isSome_mono m k x.guid x.title h)
    | some prev =>
      by_cases hp : prev = x.title
      · simpa [rsiLoop, hg, hp] using ih m h
      · cases hn : ntf x with
        | raised =>
          simpa [rsiLoop, hg, hp, hn] using
            dictSet_isSome_mono m k x.guid x.title h
        | ok =>
          simpa [rsiLoop, hg, hp, hn] using
            ih (dictSet m x.guid x.title) (dictSet_isSome_mono m k x.guid x.title h)

/-- **C6**: the seen set grows monotonically: in each of the five
poll-diff-notify cogs, one loop iteration never removes an identity key —
every key present before the iteration is still present after it (for the
WoW and RSI cogs, whose first-run branch rebuilds the seen structure from
the fetch, the hypothesis records that the first-run flag can only be set
while the structure is still empty, as at construction). -/
theorem c6_seen_monotone
    (s1 : AIState) (e1 : AIEnv) (p x1 : String) (h1 : x1 ∈ seenGet s1.seen p)
    (s2 : MCState) (e2 : MCEnv) (x2 : String) (h2 : x2 ∈ s2.seen)
    (s3 : SCState) (e3 : SCEnv) (x3 : String) (h3 : x3 ∈ s3.seenIds)
    (s4 : WowState) (e4 : WowEnv) (g l : String)
    (hg : g ∈ s4.seenGuids) (hl : l ∈ s4.seenLinks)
    (hinv4 : s4.firstRun = true → s4.seenGuids = ∅)
    (s5 : RSIState) (e5 : RSIEnv) (k : String)
    (hk : (dictGet s5.seenGuids k).isSome)
    (hinv5 : s5.firstRun = true → s5.seenGuids = []) :
    x1 ∈ seenGet (aiCheck s1 e1).state.seen p ∧
    x2 ∈ (mcCheck s2 e2).state.seen ∧
    x3 ∈ (scCheck s3 e3).state.seenIds ∧
    (g ∈ (wowCheck s4 e4).1.seenGuids ∧ l ∈ (wowCheck s4 e4).1.seenLinks) ∧
    (dictGet (rsiCheck s5 e5).1.seenGuids k).isSome := by
  refine ⟨aiCheck_seen_mono s1 e1 p x1 h1, mcCheck_seen_mono s2 e2 x2 h2,
    scCheck_seen_mono s3 e3 x3 h3, wowCheck_mono s4 e4 g l hg hl hinv4, ?_⟩
  cases hf : e5.fetch with
  | error e => simpa [rsiCheck, hf] using hk
  | ok items =>
    simp only [rsiCheck, hf]
    by_cases h0 : items.isEmpty
    · simpa [h0] using hk
    · by_cases hfr : s5.firstRun
      · rw [hinv5 hfr] at hk
        simp [dictGet] at hk
      · by_cases hch : e5.channelFound
        · simpa [h0, hfr, hch] using rsiLoop_key_mono e5.notify k items s5.seenGuids hk
        · simpa [h0, hfr, hch] using hk

/-- **C6 witness**: the monotonicity theorem at concrete one-key states and
one concrete iteration per cog. -/
theorem c6_witness :
    "u1" ∈ seenGet (aiCheck ⟨[("openai", ["u1"])], false⟩
        ⟨[Except.ok [⟨"T", "u2", ""⟩]], true, fun _ _ => AINotify.posted⟩).state.seen
        "openai" ∧
    "m1" ∈ (mcCheck ⟨["m1"], false⟩
        ⟨Except.ok [⟨"Minecraft Patch Thing", "m2"⟩], true,
          fun _ => MCNotify.ok⟩).state.seen :=
  have h := c6_seen_monotone
    ⟨[("openai", ["u1"])], false⟩
    ⟨[Except.ok [⟨"T", "u2", ""⟩]], true, fun _ _ => AINotify.posted⟩
    "openai" "u1" (by decide)
    ⟨["m1"], false⟩
    ⟨Except.ok [⟨"Minecraft Patch Thing", "m2"⟩], true, fun _ => MCNotify.ok⟩
    "m1" (by decide)
    ⟨{"s1"}, false⟩ ⟨Except.ok [⟨"v2", "T"⟩], true, fun _ => SCNotify.ok⟩
    "s1" (by decide)
    ⟨{"g1"}, {"l1"}, false⟩
    ⟨Except.ok [⟨"Patch Notes", "l2", "g2"⟩], true, fun _ => WowNotify.success⟩
    "g1" "l1" (by decide) (by decide)
    (by intro hh; exact absurd hh (by decide))
    ⟨[("g1", "[Investigating] X")], false⟩
    ⟨Except.ok [⟨"[Resolved] X", "g1"⟩], true, fun _ => RSINotify.ok⟩
    "g1" (by decide)
    (by intro hh; exact absurd hh (by decide))
  ⟨h.1, h.2.1⟩

/-! ### Claim C7 -/

/-- **C7**: persistence round-trip.  Writing the ai_news seen map with
`_save_seen` and reading the written value back with `_load_seen` (as at cog
construction after a restart) reproduces exactly the same map, and likewise
for the SC YouTube watcher's id set (`sorted(...)` then `set(...)`). -/
theorem c7_persistence_roundtrip :
    (∀ m : SeenMap, aiLoadSeen (FileRead.parsed (aiSaveSeen m)) = some m) ∧
    (∀ st : Finset String, scLoadSeen (FileRead.parsed (scSaveSeen st)) = some st) := by
  constructor
  · intro m
    exact jsonToSeenMap_roundtrip m
  · intro st
    show Option.map List.toFinset
        (jsonToStrList (Json.arr ((st.sort (· ≤ ·)).map Json.str))) = some st
    rw [jsonToStrList_roundtrip]
    simp [Finset.sort_toFinset]

/-! ### Claim C8 -/

theorem mcCheck_firstRun_false (s : MCState) (e : MCEnv) (items : List MCArticle)
    (hf : e.fetch = Except.ok items) : (mcCheck s e).state.firstRun = false := by
  simp only [mcCheck, hf]
  cases hb : s.firstRun with
  | true => simp [hb]
  | false =>
    by_cases h2 : (items.filter
        (fun a => !(decide (a.url ∈ s.seen)) && is_game_update a.title.data)).isEmpty
    · simp [hb, h2]
    · by_cases h3 : e.channelFound
      · simp [hb, h2, h3]
      · simp [hb, h2, h3]

theorem mcCheck_seeds_all (s : MCState) (e : MCEnv) (items : List MCArticle)
    (hf : e.fetch = Except.ok items) (hch : e.channelFound = true)
    (a : MCArticle) (ha : a ∈ items) (hgu : is_game_update a.title.data = true) :
    a.url ∈ (mcCheck s e).state.seen := by
  by_cases hs : a.url ∈ s.seen
  · exact mcCheck_seen_mono s e a.url hs
  · simp only [mcCheck, hf]
    by_cases h1 : s.firstRun
    · simpa [h1] using mcSeed_mem a items s.seen ha
    · have hpred : (!(decide (a.url ∈ s.seen)) && is_game_update a.title.data) = true := by
        simp [hs, hgu]
      have hmemf : a ∈ items.filter
          (fun a => !(decide (a.url ∈ s.seen)) && is_game_update a.title.data) :=
        List.mem_filter.mpr ⟨ha, hpred⟩
      have h2 : (items.filter
          (fun a => !(decide (a.url ∈ s.seen)) && is_game_update a.title.data)).isEmpty
            = false := by
        cases hh : items.filter
            (fun a => !(decide (a.url ∈ s.seen)) && is_game_update a.title.data) with
        | nil => rw [hh] at hmemf; cases hmemf
        | cons _ _ => rfl
      simp only [h1, h2, hch, Bool.false_eq_true, if_false, Bool.not_true]
      exact mcNotifyLoop_url_mem e.notify a _ s.seen hmemf

theorem scNotifyLoop_ok_mem (ntf : Video → SCNotify)
    (hok : ∀ v, ntf v = SCNotify.ok) (x : Video) :
    ∀ (l : List Video) (seen : Finset String),
      x ∈ l → x.videoId ∈ (scNotifyLoop ntf seen l).1 := by
  intro l
  induction l with
  | nil => intro seen h; cases h
  | cons v rest ih =>
    intro seen h
    rcases List.mem_cons.mp h with rfl | hm
    · simpa [scNotifyLoop, hok x] using
        scNotifyLoop_seen_mono ntf x.videoId rest _ (Finset.mem_insert_self _ _)
    · simpa [scNotifyLoop, hok v] using ih (insert v.videoId seen) hm

theorem scCheck_firstRun_false (t : SCState) (f : SCEnv) (videos : List Video)
    (hf : f.fetch = Except.ok videos) : (scCheck t f).state.firstRun = false := by
  simp only [scCheck, hf]
  by_cases h0 : videos.isEmpty
  · simp [h0]
  · cases hb : t.firstRun with
    | true => simp [h0, hb]
    | false =>
      by_cases h2 : (videos.filter (fun v => !(decide (v.videoId ∈ t.seenIds)))).isEmpty
      · simp [h0, hb, h2]
      · by_cases h3 : f.channelFound
        · simp [h0, hb, h2, h3]
        · simp [h0, hb, h2, h3]

theorem scCheck_seeds_all (t : SCState) (f : SCEnv) (videos : List Video)
    (hf : f.fetch = Except.ok videos) (hch : f.channelFound = true)
    (hok : ∀ v, f.notify v = SCNotify.ok)
    (v : Video) (hv : v ∈ videos) :
    v.videoId ∈ (scCheck t f).state.seenIds := by
  have hvne : videos.isEmpty = false := by
    cases videos with
    | nil => cases hv
    | cons _ _ => rfl
  by_cases hs : v.videoId ∈ t.seenIds
  · exact scCheck_seen_mono t f v.videoId hs
  · simp only [scCheck, hf, hvne, Bool.false_eq_true, if_false]
    by_cases h1 : t.firstRun
    · simp only [h1, if_true]
      simp only [Finset.mem_union]
      exact Or.inr (List.mem_toFinset.mpr (List.mem_map.mpr ⟨v, hv, rfl⟩))
    · have hpred : (!(decide (v.videoId ∈ t.seenIds))) = true := by simp [hs]
      have hmemf : v ∈ videos.filter (fun v => !(decide (v.videoId ∈ t.seenIds))) :=
        List.mem_filter.mpr ⟨hv, hpred⟩
      have h2 : (videos.filter (fun v => !(decide (v.videoId ∈ t.seenIds)))).isEmpty
          = false := by
        cases hh : videos.filter (fun v => !(decide (v.videoId ∈ t.seenIds))) with
        | nil => rw [hh] at hmemf; cases hmemf
        | cons _ _ => rfl
      simp only [h1, h2, hch, Bool.false_eq_true, if_false, Bool.not_true]
      exact scNotifyLoop_ok_mem f.notify hok v _ t.seenIds hmemf

theorem mcCheck_no_new (s : MCState) (e : MCEnv) (items : List MCArticle)
    (hf : e.fetch = Except.ok items) (h1 : s.firstRun = false)
    (h2 : items.filter
      (fun a => !(decide (a.url ∈ s.seen)) && is_game_update a.title.data) = []) :
    mcCheck s e = ⟨s, [], false⟩ := by
  simp only [mcCheck, hf, h1, h2, Bool.false_eq_true, if_false,
    List.isEmpty_nil, if_true]

theorem scCheck_no_new (t : SCState) (f : SCEnv) (videos : List Video)
    (hf : f.fetch = Except.ok videos) (hvne : videos.isEmpty = false)
    (h1 : t.firstRun = false)
    (h2 : videos.filter (fun v => !(decide (v.videoId ∈ t.seenIds))) = []) :
    scCheck t f = ⟨t, [], false⟩ := by
  simp only [scCheck, hf, hvne, h1, h2, Bool.false_eq_true, if_false,
    List.isEmpty_nil, if_true]

/-- **C8**: idempotence of the diff step.  After an invocation that fetched
N items with the notification channel available (and, in the SC YouTube
watcher, with no notification raising), a second non-first-run invocation
presented with exactly the same N items emits zero notifications and leaves
the seen set unchanged — shown for the Minecraft cog (where it needs no
assumption on the first invocation's per-item notify outcomes) and the SC
YouTube watcher. -/
theorem c8_diff_idempotent
    (s : MCState) (e1 e2 : MCEnv) (items : List MCArticle)
    (hf1 : e1.fetch = Except.ok items) (hch1 : e1.channelFound = true)
    (hf2 : e2.fetch = Except.ok items)
    (t : SCState) (f1 f2 : SCEnv) (videos : List Video)
    (hg1 : f1.fetch = Except.ok videos) (hgc : f1.channelFound = true)
    (hok : ∀ v, f1.notify v = SCNotify.ok)
    (hg2 : f2.fetch = Except.ok videos) :
    (mcCheck (mcCheck s e1).state e2).posts = [] ∧
    (mcCheck (mcCheck s e1).state e2).state.seen = (mcCheck s e1).state.seen ∧
    (scCheck (scCheck t f1).state f2).posts = [] ∧
    (scCheck (scCheck t f1).state f2).state.seenIds = (scCheck t f1).state.seenIds := by
  have hfr2 := mcCheck_firstRun_false s e1 items hf1
  have hfilter : items.filter
      (fun a => !(decide (a.url ∈ (mcCheck s e1).state.seen))
        && is_game_update a.title.data) = [] := by
    apply List.filter_eq_nil_iff.mpr
    intro a ha
    by_cases hgu : is_game_update a.title.data = true
    · simp [mcCheck_seeds_all s e1 items hf1 hch1 a ha hgu]
    · simp [hgu]
  have hmc : mcCheck (mcCheck s e1).state e2 = ⟨(mcCheck s e1).state, [], false⟩ :=
    mcCheck_no_new (mcCheck s e1).state e2 items hf2 hfr2 hfilter
  refine ⟨by rw [hmc], by rw [hmc], ?_, ?_⟩ <;>
  · by_cases hvempty : videos.isEmpty
    · have h1 : scCheck t f1 = ⟨⟨t.seenIds, false⟩, [], false⟩ := by
        simp only [scCheck, hg1, hvempty, if_true]
      have h2 : scCheck (⟨t.seenIds, false⟩ : SCState) f2
          = ⟨⟨t.seenIds, false⟩, [], false⟩ := by
        simp only [scCheck, hg2, hvempty, if_true]
      simp [h1, h2]
    · have hvne : videos.isEmpty = false := by
        simpa using hvempty
      have hfr2' := scCheck_firstRun_false t f1 videos hg1
      have hfilter' : videos.filter
          (fun v => !(decide (v.videoId ∈ (scCheck t f1).state.seenIds))) = [] := by
        apply List.filter_eq_nil_iff.mpr
        intro v hv
        simp [scCheck_seeds_all t f1 videos hg1 hgc hok v hv]
      have hsc : scCheck (scCheck t f1).state f2 = ⟨(scCheck t f1).state, [], false⟩ :=
        scCheck_no_new (scCheck t f1).state f2 videos hg2 hvne hfr2' hfilter'
      simp [hsc]

/-- **C8 witness**: the idempotence theorem at a concrete one-article /
one-video fetch repeated twice. -/
theorem c8_witness :
    (mcCheck (mcCheck ⟨[], false⟩
        ⟨Except.ok [⟨"Minecraft Snapshot 25W02A", "mu1"⟩], true, fun _ => MCNotify.ok⟩).state
        ⟨Except.ok [⟨"Minecraft Snapshot 25W02A", "mu1"⟩], true, fun _ => MCNotify.ok⟩).posts
      = [] ∧
    (scCheck (scCheck ⟨∅, false⟩
        ⟨Except.ok [⟨"vid1", "Star Citizen Live"⟩], true, fun _ => SCNotify.ok⟩).state
        ⟨Except.ok [⟨"vid1", "Star Citizen Live"⟩], true, fun _ => SCNotify.ok⟩).posts
      = [] :=
  have h := c8_diff_idempotent ⟨[], false⟩
    ⟨Except.ok [⟨"Minecraft Snapshot 25W02A", "mu1"⟩], true, fun _ => MCNotify.ok⟩
    ⟨Except.ok [⟨"Minecraft Snapshot 25W02A", "mu1"⟩], true, fun _ => MCNotify.ok⟩
    [⟨"Minecraft Snapshot 25W02A", "mu1"⟩] rfl rfl rfl
    ⟨∅, false⟩
    ⟨Except.ok [⟨"vid1", "Star Citizen Live"⟩], true, fun _ => SCNotify.ok⟩
    ⟨Except.ok [⟨"vid1", "Star Citizen Live"⟩], true, fun _ => SCNotify.ok⟩
    [⟨"vid1", "Star Citizen Live"⟩] rfl rfl (fun _ => rfl) rfl
  ⟨h.1, h.2.2.1⟩

/-! ### Claim C9 -/

/-- **C9**: a missing data file, invalid JSON, or an `OSError` while reading
makes each load function return an empty seen set instead of raising, and
the cog constructor (`_first_run = not seen`) therefore starts in first-run
re-seeding mode. -/
theorem c9_load_errors_empty :
    aiInit FileRead.missing = some ⟨[], true⟩ ∧
    aiInit FileRead.osError = some ⟨[], true⟩ ∧
    aiInit FileRead.badJson = some ⟨[], true⟩ ∧
    mcInit FileRead.missing = some ⟨[], true⟩ ∧
    mcInit FileRead.osError = some ⟨[], true⟩ ∧
    mcInit FileRead.badJson = some ⟨[], true⟩ ∧
    scInit FileRead.missing = some ⟨∅, true⟩ ∧
    scInit FileRead.osError = some ⟨∅, true⟩ ∧
    scInit FileRead.badJson = some ⟨∅, true⟩ := by
  refine ⟨rfl, rfl, rfl, rfl, rfl, rfl, ?_, ?_, ?_⟩ <;>
    simp [scInit, scLoadSeen]

/-- **C10 witness**: exclusion beats inclusion on a concrete title that
contains both an exclude keyword and an update keyword. -/
theorem c10_witness :
    is_game_update "Minecraft Marketplace Update".data = false :=
  (c10_is_game_update_spec "Minecraft Marketplace Update".data).1
    ⟨"marketplace", by decide, by decide⟩
